import Mathlib

/-!
Verification of the WaveNumberOCR backend
(`src/app_utils/WaveNumberOCR/app/backend.py`, class `ScreenTextRecognizer`).

Strings are modelled as `List Char` (Python `str` is a sequence of code
points, exactly a list of `Char`).  Every definition below is translated
from the Python source; the few definitions that instead follow the
specification wording (used to compare spec against code) say so in their
doc comment.
-/

/-! ## Character classes used by the regular expressions

`isDig` models the regex class `[0-9]` (ASCII digits only).
`isPySpace` models the Python class `\s` for `str` patterns: the Unicode
whitespace set `[ \t\n\r\f\v]`, `\x1c`-`\x1f`, `\x85`, `\xa0`, ` `,
` `-` `, ` `, ` `, ` `, ` `, `　`. -/

def isDig (c : Char) : Bool := decide (48 ≤ c.toNat ∧ c.toNat ≤ 57)

def isPySpace (c : Char) : Bool :=
  decide (c.toNat = 32 ∨ (9 ≤ c.toNat ∧ c.toNat ≤ 13) ∨
    (28 ≤ c.toNat ∧ c.toNat ≤ 31) ∨ c.toNat = 133 ∨ c.toNat = 160 ∨
    c.toNat = 5760 ∨ (8192 ≤ c.toNat ∧ c.toNat ≤ 8202) ∨ c.toNat = 8232 ∨
    c.toNat = 8233 ∨ c.toNat = 8239 ∨ c.toNat = 8287 ∨ c.toNat = 12288)

/-- Regex class `[第弟]` (the marker glyph and its common OCR misread). -/
def isMarkerGlyph (c : Char) : Bool := decide (c = '第' ∨ c = '弟')

/-- Regex class `[波坡]` (the unit glyph and its common OCR misread). -/
def isUnitGlyph (c : Char) : Bool := decide (c = '波' ∨ c = '坡')

/-! ## `_normalize_common_misread` -/

/-- One character of the replacement table in `_normalize_common_misread`:
`I`, `l`, `|` become `1`; `O`, `o`, `〇` become `0`.  The Python code
performs six sequential `str.replace` calls; since no replacement output
(`1`, `0`) is itself a replaced key, the sequence equals this single
per-character map. -/
def misreadFix (c : Char) : Char :=
  if c = 'I' then '1'
  else if c = 'l' then '1'
  else if c = '|' then '1'
  else if c = 'O' then '0'
  else if c = 'o' then '0'
  else if c = '〇' then '0'
  else c

def normalize_common_misread (s : List Char) : List Char := s.map misreadFix

/-! ## `_chinese_numeral_to_int` -/

/-- The `digits` table of `_chinese_numeral_to_int`. -/
def digitVal (c : Char) : Option Nat :=
  if c = '零' then some 0
  else if c = '一' then some 1
  else if c = '二' then some 2
  else if c = '三' then some 3
  else if c = '四' then some 4
  else if c = '五' then some 5
  else if c = '六' then some 6
  else if c = '七' then some 7
  else if c = '八' then some 8
  else if c = '九' then some 9
  else none

/-- `s.replace("两", "二")`: a single-character replacement is a map. -/
def mapLiang (s : List Char) : List Char :=
  s.map fun c => if c = '两' then '二' else c

/-- Python `s.split(sep)` for a one-character separator (keeps empty
segments, always returns at least one segment). -/
def splitOnChar (sep : Char) : List Char → List (List Char)
  | [] => [[]]
  | c :: cs =>
    match splitOnChar sep cs with
    | [] => [[]]
    | p :: ps => if c = sep then [] :: p :: ps else (c :: p) :: ps

/-- Python `part in digits` where `digits` has single-character keys:
true exactly for a one-character segment carrying a digit value. -/
def strDigitVal (p : List Char) : Option Nat :=
  match p with
  | [c] => digitVal c
  | _ => none

/-- `ScreenTextRecognizer._chinese_numeral_to_int` (backend.py lines
206-257), with `None` as `none`. -/
def chinese_numeral_to_int (s0 : List Char) : Option Nat :=
  let s := mapLiang s0
  if s = [] then none
  else if s.all (fun c => (digitVal c).isSome) then
    some (s.foldl (fun acc c => acc * 10 + (digitVal c).getD 0) 0)
  else if '十' ∈ s then
    let parts := splitOnChar '十' s
    if parts = [[], []] then some 10
    else
      let tens? : Option Nat :=
        if parts.headD [] = [] then some 1 else strDigitVal (parts.headD [])
      let ones? : Option Nat :=
        match parts[1]? with
        | some p => if p = [] then some 0 else strDigitVal p
        | none => some 0
      match tens?, ones? with
      | some t, some o => some (t * 10 + o)
      | _, _ => none
  else none

/-! ## The two regex searches of `parse_wave_number`

Pattern 1 is `[第弟]\s*([0-9]{1,4})\s*[波坡]` (with `re.DOTALL`, which is
irrelevant: the pattern has no dot).  Pattern 2 is
`[第弟]\s*([零一二三四五六七八九十两]+)\s*[波坡]`.

Backtracking never matters for these patterns: the digit class, the
whitespace class and the unit class are pairwise disjoint, so after the
marker the greedy `\s*` run is forced, the greedy digit run must be the
whole maximal run (shortening it leaves a digit where `\s*[波坡]` must
match, which fails immediately), and the second `\s*` run is forced.
Hence an anchored match at a position succeeds iff: marker, maximal
whitespace run, maximal digit run of an allowed length, maximal
whitespace run, unit.  `re.search` returns the leftmost such position. -/

/-- Anchored attempt of pattern 1 at the head of the list; returns the
captured digit group. -/
def matchDigitAt : List Char → Option (List Char)
  | [] => none
  | c :: rest =>
    if isMarkerGlyph c then
      let afterSp := rest.dropWhile isPySpace
      let run := afterSp.takeWhile isDig
      if run = [] then none
      else if 4 < run.length then none
      else
        match (afterSp.drop run.length).dropWhile isPySpace with
        | u :: _ => if isUnitGlyph u then some run else none
        | [] => none
    else none

/-- `pattern_digit.search`: leftmost anchored match. -/
def searchDigit : List Char → Option (List Char)
  | [] => none
  | c :: rest =>
    match matchDigitAt (c :: rest) with
    | some r => some r
    | none => searchDigit rest

/-- Regex class `[零一二三四五六七八九十两]`. -/
def isCnGlyph (c : Char) : Bool :=
  (digitVal c).isSome || c = '十' || c = '两'

/-- Anchored attempt of pattern 2 at the head of the list. -/
def matchCnAt : List Char → Option (List Char)
  | [] => none
  | c :: rest =>
    if isMarkerGlyph c then
      let afterSp := rest.dropWhile isPySpace
      let run := afterSp.takeWhile isCnGlyph
      if run = [] then none
      else
        match (afterSp.drop run.length).dropWhile isPySpace with
        | u :: _ => if isUnitGlyph u then some run else none
        | [] => none
    else none

/-- `pattern_cn.search`: leftmost anchored match. -/
def searchCn : List Char → Option (List Char)
  | [] => none
  | c :: rest =>
    match matchCnAt (c :: rest) with
    | some r => some r
    | none => searchCn rest

/-! ## `str(num)` for the converted numeral -/

/-- Fuel-driven decimal printer (the fuel `n + 1` always suffices since
`n / 10 < n` for `n ≥ 10`). -/
def natDigitsAux : Nat → Nat → List Char → List Char
  | 0, _, acc => acc
  | fuel + 1, n, acc =>
    let acc2 := Char.ofNat (48 + n % 10) :: acc
    if n < 10 then acc2 else natDigitsAux fuel (n / 10) acc2

/-- Python `str(n)` for a non-negative integer. -/
def natDigits (n : Nat) : List Char := natDigitsAux (n + 1) n []

/-! ## `parse_wave_number` -/

/-- The Chinese-numeral fallback of `parse_wave_number` (lines 274-282):
search pattern 2 on the raw text, convert the first captured run, return
`str` of the value when the conversion succeeds. -/
def cnFallback (text : List Char) : Option (List Char) :=
  match searchCn text with
  | some run =>
    match chinese_numeral_to_int run with
    | some n => some (natDigits n)
    | none => none
  | none => none

/-- `ScreenTextRecognizer.parse_wave_number` (backend.py lines 259-282):
normalize misreads, try the Arabic-digit pattern on the normalized text,
then the Chinese-numeral pattern on the raw text. -/
def parse_wave_number (text : List Char) : Option (List Char) :=
  match searchDigit (normalize_common_misread text) with
  | some run => some run
  | none => cnFallback text

/-! ## `normalize_box` and `capture_region` -/

/-- `ScreenTextRecognizer.normalize_box` (backend.py lines 57-66). -/
def normalize_box (x1 y1 x2 y2 : Int) : Int × Int × Int × Int :=
  (min x1 x2, min y1 y2, max x1 x2, max y1 y2)

instance exceptDecEq {ε α : Type} [DecidableEq ε] [DecidableEq α] :
    DecidableEq (Except ε α) := fun x y =>
  match x, y with
  | Except.ok a, Except.ok b =>
    if h : a = b then isTrue (by rw [h])
    else isFalse (by intro he; cases he; exact h rfl)
  | Except.error e, Except.error f =>
    if h : e = f then isTrue (by rw [h])
    else isFalse (by intro he; cases he; exact h rfl)
  | Except.ok _, Except.error _ => isFalse (by intro h; cases h)
  | Except.error _, Except.ok _ => isFalse (by intro h; cases h)

/-- The exception class `ScreenCaptureError`; its two raise sites are the
geometry check and the wrapped OS failure. -/
inductive ScreenCaptureError where
  | badGeometry (width height : Int) : ScreenCaptureError
  | osFailure : ScreenCaptureError
deriving DecidableEq, Repr

/-- `ScreenTextRecognizer.capture_region` (backend.py lines 68-91).  The
`mss` grab is abstracted as `grab left top width height`, returning
`none` when the OS call raises. -/
def capture_region {α : Type} (grab : Int → Int → Int → Int → Option α)
    (x1 y1 x2 y2 : Int) : Except ScreenCaptureError α :=
  let b := normalize_box x1 y1 x2 y2
  let width := b.2.2.1 - b.1
  let height := b.2.2.2 - b.2.1
  if width ≤ 0 ∨ height ≤ 0 then
    Except.error (ScreenCaptureError.badGeometry width height)
  else
    match grab b.1 b.2.1 width height with
    | some frame => Except.ok frame
    | none => Except.error ScreenCaptureError.osFailure

/-! ## `_build_color_mask_image` -/

structure RGBA where
  r : Nat
  g : Nat
  b : Nat
  a : Nat
deriving DecidableEq, Repr

/-- An image as its pixel grid (rows of RGBA pixels). -/
abbrev Img := List (List RGBA)

/-- The per-pixel effect of `_build_color_mask_image` (backend.py lines
362-390): pixels whose RGB equals the target keep their RGB and get
alpha 255; all other pixels become fully transparent black. -/
def buildColorMaskPixel (tr tg tb : Nat) (p : RGBA) : RGBA :=
  if p.r = tr ∧ p.g = tg ∧ p.b = tb then ⟨p.r, p.g, p.b, 255⟩
  else ⟨0, 0, 0, 0⟩

/-- `ScreenTextRecognizer._build_color_mask_image`: the numpy mask
assignment is pixelwise, i.e. a map over the grid. -/
def build_color_mask_image (tr tg tb : Nat) (img : Img) : Img :=
  img.map fun row => row.map (buildColorMaskPixel tr tg tb)

/-! ## Deduplicated export (`save_region_color_mask`) -/

/-- ASCII model of Python `str.lower()` (file names here are timestamp
digits plus an extension, all ASCII). -/
def lowerChar (c : Char) : Char :=
  if 65 ≤ c.toNat ∧ c.toNat ≤ 90 then Char.ofNat (c.toNat + 32) else c

/-- Python `l.endswith(s)` on lists of characters. -/
def endsWithL (l s : List Char) : Bool :=
  decide (l.drop (l.length - s.length) = s)

/-- The extension filter of `_image_already_exists`:
`name.lower().endswith((".png", ".jpg", ".jpeg"))`. -/
def hasImageExt (name : List Char) : Bool :=
  let low := name.map lowerChar
  endsWithL low ".png".data || endsWithL low ".jpg".data ||
    endsWithL low ".jpeg".data

/-- `ScreenTextRecognizer._is_same_image` on two RGBA grids: same size
and no differing pixel, i.e. equality of the grids. -/
def is_same_image (a b : Img) : Bool := decide (a = b)

/-- A file in the export directory, already decoded to RGBA. -/
structure FsFile where
  name : List Char
  content : Img
deriving DecidableEq, Repr

/-- `ScreenTextRecognizer._image_already_exists` (backend.py lines
392-433): some listed file with an image extension whose RGBA content
equals the candidate. -/
def image_already_exists (candidate : Img) (files : List FsFile) : Bool :=
  files.any fun f => hasImageExt f.name && is_same_image candidate f.content

structure ExportDir where
  files : List FsFile
deriving DecidableEq, Repr

/-- The persistence tail of `save_region_color_mask` (lines 472-482):
skip and return `None` on a duplicate, otherwise write
`<unix-seconds>.png` and return the name. -/
def saveMaskStep (mask : Img) (dir : ExportDir) (now : Nat) :
    ExportDir × Option (List Char) :=
  if image_already_exists mask dir.files then (dir, none)
  else
    let fname := natDigits now ++ ".png".data
    (⟨dir.files ++ [⟨fname, mask⟩]⟩, some fname)

/-- The `mss` grab over an idealized screen `screen x y = (r, g, b)`;
`Image.frombytes("RGB", ...)` then converting to RGBA gives alpha 255. -/
def grabScreen (screen : Int → Int → Nat × Nat × Nat)
    (left top width height : Int) : Option Img :=
  some ((List.range height.toNat).map fun j =>
    (List.range width.toNat).map fun i =>
      let p := screen (left + Int.ofNat i) (top + Int.ofNat j)
      ⟨p.1, p.2.1, p.2.2, 255⟩)

/-- `ScreenTextRecognizer.get_pixel_color` (backend.py lines 346-358):
a 1x1 `capture_region` followed by `getpixel((0, 0))`. -/
def get_pixel_color (screen : Int → Int → Nat × Nat × Nat) (x y : Int) :
    Except ScreenCaptureError (Nat × Nat × Nat) :=
  match capture_region (grabScreen screen) x y (x + 1) (y + 1) with
  | Except.ok img =>
    let p := (img.headD []).headD ⟨0, 0, 0, 0⟩
    Except.ok (p.r, p.g, p.b)
  | Except.error e => Except.error e

/-- `ScreenTextRecognizer.save_region_color_mask` (backend.py lines
435-482): capture the region, sample the target color, build the mask,
then deduplicate and persist. -/
def save_region_color_mask (screen : Int → Int → Nat × Nat × Nat)
    (x1 y1 x2 y2 cx cy : Int) (dir : ExportDir) (now : Nat) :
    Except ScreenCaptureError (ExportDir × Option (List Char)) :=
  match capture_region (grabScreen screen) x1 y1 x2 y2 with
  | Except.error e => Except.error e
  | Except.ok region =>
    match get_pixel_color screen cx cy with
    | Except.error e => Except.error e
    | Except.ok t =>
      let mask := build_color_mask_image t.1 t.2.1 t.2.2 region
      Except.ok (saveMaskStep mask dir now)

/-- The mask image that `save_region_color_mask` builds for a given
screen, region and sample point (when the region geometry is valid). -/
def regionMask (screen : Int → Int → Nat × Nat × Nat)
    (x1 y1 x2 y2 cx cy : Int) : Img :=
  let b := normalize_box x1 y1 x2 y2
  let t := screen cx cy
  match grabScreen screen b.1 b.2.1 (b.2.2.1 - b.1) (b.2.2.2 - b.2.1) with
  | some img => build_color_mask_image t.1 t.2.1 t.2.2 img
  | none => []

/-! ## Definitions following the specification wording (for comparison
with the code) -/

/-- Modelled from the spec (the reading in claim C2 of the tens-marker rule):
split on the tens marker; an empty prefix means tens 1, a non-empty
prefix must be exactly one recognized digit glyph; a missing or empty
suffix means ones 0, a present suffix must be exactly one recognized
digit glyph; the result is tens * 10 + ones. -/
def c2WaveTens (s : List Char) : Option Nat :=
  let parts := splitOnChar '十' (mapLiang s)
  let pre := parts.headD []
  let suf := (parts[1]?).getD []
  match (if pre = [] then some 1 else strDigitVal pre),
      (if suf = [] then some 0 else strDigitVal suf) with
  | some t, some o => some (t * 10 + o)
  | _, _ => none

/-- Modelled from the spec (claim C4): the positional concatenation of
the digit values of the glyphs. -/
def concatSpecVal (s : List Char) : Nat :=
  ((mapLiang s).map fun c => (digitVal c).getD 0).foldl
    (fun acc d => acc * 10 + d) 0

/-! ## Helper lemmas -/

lemma digitVal_le_nine {c : Char} {v : Nat} (h : digitVal c = some v) : v ≤ 9 := by
  unfold digitVal at h
  split_ifs at h <;> simp at h <;> omega

lemma digitVal_getD_le (c : Char) : (digitVal c).getD 0 ≤ 9 := by
  cases h : digitVal c with
  | none => simp
  | some v => simpa using digitVal_le_nine h

lemma strDigitVal_le {p : List Char} {v : Nat} (h : strDigitVal p = some v) :
    v ≤ 9 := by
  unfold strDigitVal at h
  split at h
  · exact digitVal_le_nine h
  · simp at h

lemma isDig_not_space {c : Char} (h : isDig c = true) : isPySpace c = false := by
  simp [isDig] at h
  simp [isPySpace]
  omega

lemma isDig_not_marker {c : Char} (h : isDig c = true) :
    isMarkerGlyph c = false := by
  simp [isMarkerGlyph]
  refine ⟨fun hc => ?_, fun hc => ?_⟩ <;> (subst hc; revert h; decide)

lemma isDig_digitVal_none {c : Char} (h : isDig c = true) : digitVal c = none := by
  unfold digitVal
  split_ifs <;> first
  | rfl
  | (exfalso; subst_vars; revert h; decide)

lemma isDig_not_cn {c : Char} (h : isDig c = true) : isCnGlyph c = false := by
  unfold isCnGlyph
  rw [isDig_digitVal_none h]
  simp only [Option.isSome_none, Bool.false_or, Bool.or_eq_false_iff,
    decide_eq_false_iff_not]
  exact ⟨fun hc => by subst hc; revert h; decide,
    fun hc => by subst hc; revert h; decide⟩

lemma misreadFix_cases (c : Char) :
    misreadFix c = c ∨ misreadFix c = '1' ∨ misreadFix c = '0' := by
  unfold misreadFix
  split_ifs <;> simp

lemma misreadFix_of_dig {c : Char} (h : isDig c = true) : misreadFix c = c := by
  unfold misreadFix
  split_ifs <;> first
  | rfl
  | (exfalso; subst_vars; revert h; decide)

lemma map_misreadFix_digits {l : List Char} (h : ∀ c ∈ l, isDig c = true) :
    l.map misreadFix = l := by
  induction l with
  | nil => rfl
  | cons a t ih =>
    rw [List.map_cons, misreadFix_of_dig (h a (by simp)),
      ih fun c hc => h c (by simp [hc])]

lemma mem_shi_mapLiang {s : List Char} (h : '十' ∈ s) : '十' ∈ mapLiang s := by
  have h2 := List.mem_map_of_mem (fun c => if c = '两' then '二' else c) h
  simp only at h2
  have h3 : (if ('十' : Char) = '两' then '二' else '十') = '十' := by decide
  rw [h3] at h2
  exact h2

lemma takeWhile_all_append {α : Type} {p : α → Bool} {l : List α} {u : α}
    {r : List α} (hl : ∀ c ∈ l, p c = true) (hu : p u = false) :
    (l ++ u :: r).takeWhile p = l := by
  induction l with
  | nil => simp [List.takeWhile_cons, hu]
  | cons a t ih =>
    have ha : p a = true := hl a (by simp)
    simp only [List.cons_append, List.takeWhile_cons_of_pos ha]
    rw [ih fun c hc => hl c (by simp [hc])]

lemma searchDigit_eq_none {l : List Char}
    (h : ∀ c ∈ l, isMarkerGlyph c = false) : searchDigit l = none := by
  induction l with
  | nil => rfl
  | cons c rest ih =>
    have hc : isMarkerGlyph c = false := h c (by simp)
    rw [searchDigit, matchDigitAt]
    simp only [hc, Bool.false_eq_true, if_false]
    exact ih fun x hx => h x (List.mem_cons_of_mem _ hx)

lemma searchCn_eq_none {l : List Char}
    (h : ∀ c ∈ l, isMarkerGlyph c = false) : searchCn l = none := by
  induction l with
  | nil => rfl
  | cons c rest ih =>
    have hc : isMarkerGlyph c = false := h c (by simp)
    rw [searchCn, matchCnAt]
    simp only [hc, Bool.false_eq_true, if_false]
    exact ih fun x hx => h x (List.mem_cons_of_mem _ hx)

lemma matchDigitAt_sound {l r : List Char} (h : matchDigitAt l = some r) :
    r ≠ [] ∧ ∀ c ∈ r, isDig c = true := by
  cases l with
  | nil => simp [matchDigitAt] at h
  | cons c rest =>
    simp only [matchDigitAt] at h
    by_cases hm : isMarkerGlyph c = true
    · rw [if_pos hm] at h
      by_cases h0 : (rest.dropWhile isPySpace).takeWhile isDig = []
      · rw [if_pos h0] at h
        simp at h
      · rw [if_neg h0] at h
        by_cases h4 : 4 < ((rest.dropWhile isPySpace).takeWhile isDig).length
        · rw [if_pos h4] at h
          simp at h
        · rw [if_neg h4] at h
          split at h
          · split at h
            · injection h with h2
              subst h2
              exact ⟨h0, fun x hx => List.mem_takeWhile_imp hx⟩
            · simp at h
          · simp at h
    · rw [if_neg hm] at h
      simp at h

lemma searchDigit_sound {l r : List Char} (h : searchDigit l = some r) :
    r ≠ [] ∧ ∀ c ∈ r, isDig c = true := by
  induction l with
  | nil => simp [searchDigit] at h
  | cons c rest ih =>
    rw [searchDigit] at h
    cases hm : matchDigitAt (c :: rest) with
    | some r0 =>
      rw [hm] at h
      injection h with h2
      subst h2
      exact matchDigitAt_sound hm
    | none =>
      rw [hm] at h
      exact ih h

lemma isDig_digitChar (n : Nat) : isDig (Char.ofNat (48 + n % 10)) = true := by
  have h : n % 10 < 10 := Nat.mod_lt _ (by omega)
  set m := n % 10 with hm
  interval_cases m <;> decide

lemma natDigitsAux_spec : ∀ fuel n acc, ∃ l, natDigitsAux fuel n acc = l ++ acc ∧
    (0 < fuel → l ≠ []) ∧ ∀ c ∈ l, isDig c = true := by
  intro fuel
  induction fuel with
  | zero =>
    intro n acc
    exact ⟨[], rfl, fun h => absurd h (by omega), by simp⟩
  | succ f ih =>
    intro n acc
    rw [natDigitsAux]
    by_cases hn : n < 10
    · rw [if_pos hn]
      refine ⟨[Char.ofNat (48 + n % 10)], rfl, fun _ => by simp, ?_⟩
      intro c hc
      simp at hc
      subst hc
      exact isDig_digitChar n
    · rw [if_neg hn]
      obtain ⟨l, hl, _, hdig⟩ := ih (n / 10) (Char.ofNat (48 + n % 10) :: acc)
      refine ⟨l ++ [Char.ofNat (48 + n % 10)], ?_, fun _ => by simp, ?_⟩
      · rw [hl]
        simp
      · intro c hc
        rcases List.mem_append.1 hc with h1 | h1
        · exact hdig c h1
        · simp at h1
          subst h1
          exact isDig_digitChar n

lemma natDigits_sound (n : Nat) :
    natDigits n ≠ [] ∧ ∀ c ∈ natDigits n, isDig c = true := by
  obtain ⟨l, hl, hne, hdig⟩ := natDigitsAux_spec (n + 1) n []
  rw [natDigits, hl]
  simp only [List.append_nil]
  exact ⟨hne (by omega), hdig⟩

lemma cnFallback_sound {t r : List Char} (h : cnFallback t = some r) :
    r ≠ [] ∧ ∀ c ∈ r, isDig c = true := by
  unfold cnFallback at h
  split at h
  · split at h
    · injection h with h2
      subst h2
      exact natDigits_sound _
    · simp at h
  · simp at h

lemma cnFallback_none {t : List Char}
    (h : ∀ c ∈ t, isMarkerGlyph c = false) : cnFallback t = none := by
  unfold cnFallback
  rw [searchCn_eq_none h]

lemma normalize_no_marker {t : List Char}
    (h : ∀ c ∈ t, isMarkerGlyph c = false) :
    ∀ c ∈ normalize_common_misread t, isMarkerGlyph c = false := by
  intro c hc
  rw [normalize_common_misread] at hc
  obtain ⟨a, ha, rfl⟩ := List.mem_map.1 hc
  rcases misreadFix_cases a with h1 | h1 | h1 <;> rw [h1]
  · exact h a ha
  · decide
  · decide

lemma sub_minmax_nonpos_iff (a b : Int) : max a b - min a b ≤ 0 ↔ a = b := by
  rcases le_total a b with h | h
  · rw [max_eq_right h, min_eq_left h]
    omega
  · rw [max_eq_left h, min_eq_right h]
    omega

lemma endsWithL_append (a s : List Char) : endsWithL (a ++ s) s = true := by
  unfold endsWithL
  rw [List.length_append, Nat.add_sub_cancel, List.drop_left]
  simp

lemma hasImageExt_png (a : List Char) : hasImageExt (a ++ ".png".data) = true := by
  simp only [hasImageExt, List.map_append]
  have h : ".png".data.map lowerChar = ".png".data := by decide
  rw [h, endsWithL_append]
  simp

lemma image_already_exists_append (mask : Img) (files : List FsFile)
    (t : Nat) :
    image_already_exists mask
      (files ++ [⟨natDigits t ++ ".png".data, mask⟩]) = true := by
  unfold image_already_exists
  rw [List.any_append]
  have h1 : (List.any [(⟨natDigits t ++ ".png".data, mask⟩ : FsFile)]
      fun f => hasImageExt f.name && is_same_image mask f.content) = true := by
    simp only [List.any_cons, List.any_nil, Bool.or_false]
    rw [hasImageExt_png]
    simp [is_same_image]
  rw [h1]
  simp

lemma get_pixel_color_eq (screen : Int → Int → Nat × Nat × Nat) (x y : Int) :
    get_pixel_color screen x y = Except.ok (screen x y) := by
  unfold get_pixel_color capture_region normalize_box grabScreen
  have hminx : min x (x + 1) = x := min_eq_left (by omega)
  have hmaxx : max x (x + 1) = x + 1 := max_eq_right (by omega)
  have hminy : min y (y + 1) = y := min_eq_left (by omega)
  have hmaxy : max y (y + 1) = y + 1 := max_eq_right (by omega)
  simp only [hminx, hmaxx, hminy, hmaxy]
  have hw : ¬(x + 1 - x ≤ 0 ∨ y + 1 - y ≤ 0) := by omega
  rw [if_neg hw]
  have h1 : (x + 1 - x).toNat = 1 := by omega
  have h2 : (y + 1 - y).toNat = 1 := by omega
  rw [h1, h2]
  have hr : List.range 1 = [0] := by decide
  rw [hr]
  simp

lemma save_geom_ok {screen : Int → Int → Nat × Nat × Nat}
    {x1 y1 x2 y2 cx cy : Int} {dir : ExportDir} {now : Nat}
    {v : ExportDir × Option (List Char)}
    (h1 : save_region_color_mask screen x1 y1 x2 y2 cx cy dir now =
      Except.ok v) : ¬(x1 = x2 ∨ y1 = y2) := by
  intro hor
  unfold save_region_color_mask capture_region normalize_box at h1
  have hc : max x1 x2 - min x1 x2 ≤ 0 ∨ max y1 y2 - min y1 y2 ≤ 0 := by
    rcases hor with h | h
    · exact Or.inl ((sub_minmax_nonpos_iff _ _).2 h)
    · exact Or.inr ((sub_minmax_nonpos_iff _ _).2 h)
  rw [if_pos hc] at h1
  simp at h1

lemma save_ok (screen : Int → Int → Nat × Nat × Nat)
    (x1 y1 x2 y2 cx cy : Int) (dir : ExportDir) (now : Nat)
    (h : ¬(x1 = x2 ∨ y1 = y2)) :
    save_region_color_mask screen x1 y1 x2 y2 cx cy dir now =
      Except.ok (saveMaskStep (regionMask screen x1 y1 x2 y2 cx cy) dir now) := by
  unfold save_region_color_mask regionMask capture_region normalize_box grabScreen
  have hc : ¬(max x1 x2 - min x1 x2 ≤ 0 ∨ max y1 y2 - min y1 y2 ≤ 0) := by
    rw [not_or, sub_minmax_nonpos_iff, sub_minmax_nonpos_iff]
    rw [not_or] at h
    exact h
  rw [if_neg hc, get_pixel_color_eq]

/-! ## Claim theorems -/

/-- Claim C5: `normalize_box` is pure (a total function), never fails, and
is invariant under any ordering of the two corner points; the result
`(left, top, right, bottom)` always satisfies `left ≤ right` and
`top ≤ bottom`. -/
theorem C5_normalize_box_sym (x1 y1 x2 y2 : Int) :
    normalize_box x1 y1 x2 y2 = normalize_box x2 y2 x1 y1 ∧
    normalize_box x1 y1 x2 y2 = normalize_box x1 y2 x2 y1 ∧
    normalize_box x1 y1 x2 y2 = normalize_box x2 y1 x1 y2 ∧
    (normalize_box x1 y1 x2 y2).1 ≤ (normalize_box x1 y1 x2 y2).2.2.1 ∧
    (normalize_box x1 y1 x2 y2).2.1 ≤ (normalize_box x1 y1 x2 y2).2.2.2 := by
  unfold normalize_box
  refine ⟨?_, ?_, ?_, min_le_max, min_le_max⟩ <;> simp [min_comm, max_comm]

/-- Claim C3 is false as stated: the all-single-digit-glyph branch
concatenates positionally, so a three-glyph input yields 234 > 99. -/
theorem C3_counterexample :
    chinese_numeral_to_int "二三四".data = some 234 ∧
    ¬(∀ n : Nat, chinese_numeral_to_int "二三四".data = some n → n ≤ 99) :=
  ⟨by decide, fun h => absurd (h 234 (by decide)) (by decide)⟩

/-- Claim C3 (amended): the conversion returns `none` or a natural
number, and the result is at most 99 whenever the input has at most two
characters or contains the tens marker; only the positional-concatenation
branch on three or more digit glyphs can exceed 99. -/
theorem C3_amended_bound (s : List Char) (n : Nat)
    (h : chinese_numeral_to_int s = some n)
    (hs : s.length ≤ 2 ∨ '十' ∈ s) : n ≤ 99 := by
  simp only [chinese_numeral_to_int] at h
  by_cases h0 : mapLiang s = []
  · rw [if_pos h0] at h
    simp at h
  · rw [if_neg h0] at h
    by_cases hall : (mapLiang s).all (fun c => (digitVal c).isSome) = true
    · rw [if_pos hall] at h
      injection h with h2
      subst h2
      have hlen : s.length ≤ 2 := by
        rcases hs with hL | hT
        · exact hL
        · exfalso
          have hmem : '十' ∈ mapLiang s := mem_shi_mapLiang hT
          rw [List.all_eq_true] at hall
          have := hall '十' hmem
          simp [digitVal] at this
      have hlen2 : (mapLiang s).length ≤ 2 := by
        rw [mapLiang, List.length_map]
        exact hlen
      have ha := digitVal_getD_le
      rcases hml : mapLiang s with _ | ⟨a, _ | ⟨b, _ | ⟨c, t⟩⟩⟩
      · simp
      · simp only [List.foldl_cons, List.foldl_nil]
        have := digitVal_getD_le a
        omega
      · simp only [List.foldl_cons, List.foldl_nil]
        have hA := digitVal_getD_le a
        have hB := digitVal_getD_le b
        omega
      · rw [hml] at hlen2
        simp at hlen2
    · rw [if_neg hall] at h
      by_cases hshi : '十' ∈ mapLiang s
      · rw [if_pos hshi] at h
        by_cases hp : splitOnChar '十' (mapLiang s) = [[], []]
        · rw [if_pos hp] at h
          injection h with h2
          omega
        · rw [if_neg hp] at h
          split at h
          · rename_i tv ov ht ho
            injection h with h2
            subst h2
            have hT : tv ≤ 9 := by
              split at ht
              · injection ht with h3
                omega
              · exact strDigitVal_le ht
            have hO : ov ≤ 9 := by
              split at ho
              · split at ho
                · injection ho with h3
                  omega
                · exact strDigitVal_le ho
              · injection ho with h3
                omega
            omega
          · simp at h
      · rw [if_neg hshi] at h
        simp at h

theorem C3_witness : (99 : Nat) ≤ 99 :=
  C3_amended_bound "九九".data 99 (by decide) (Or.inl (by decide))

/-- Claim C4 is false for the empty string: every character of the empty
input is (vacuously) a recognized digit glyph, yet the conversion
returns `none`, not the (empty) positional concatenation value. -/
theorem C4_counterexample_empty :
    ((mapLiang ([] : List Char)).all fun c => (digitVal c).isSome) = true ∧
    chinese_numeral_to_int [] ≠ some (concatSpecVal []) := by
  refine ⟨by decide, ?_⟩
  decide

/-- Claim C4 (amended to non-empty inputs): when the input is non-empty
and, after mapping the two-variant glyph, every character is a
recognized single-digit glyph, the conversion returns the positional
concatenation of the digit values. -/
theorem C4_concat_amended (s : List Char) (hne : s ≠ [])
    (hall : ((mapLiang s).all fun c => (digitVal c).isSome) = true) :
    chinese_numeral_to_int s = some (concatSpecVal s) := by
  have hm : mapLiang s ≠ [] := by
    simpa [mapLiang, List.map_eq_nil_iff] using hne
  simp only [chinese_numeral_to_int, concatSpecVal, if_neg hm, hall, if_true,
    List.foldl_map]

theorem C4_witness : chinese_numeral_to_int "二三".data = some 23 :=
  (C4_concat_amended "二三".data (by decide) (by decide)).trans (by decide)

/-- Claim C7: in the mask image every pixel is one of exactly two values:
a pixel whose RGB equals the target becomes the target color with alpha
255 (its original RGB), and every other pixel becomes fully transparent
black `(0, 0, 0, 0)`. -/
theorem C7_mask_pixels (tr tg tb : Nat) (img : Img) :
    (∀ row ∈ build_color_mask_image tr tg tb img, ∀ p ∈ row,
        p = ⟨tr, tg, tb, 255⟩ ∨ p = ⟨0, 0, 0, 0⟩) ∧
    (∀ q : RGBA, buildColorMaskPixel tr tg tb q =
        if q.r = tr ∧ q.g = tg ∧ q.b = tb then ⟨tr, tg, tb, 255⟩
        else ⟨0, 0, 0, 0⟩) := by
  constructor
  · intro row hrow p hp
    rw [build_color_mask_image] at hrow
    obtain ⟨row0, _, rfl⟩ := List.mem_map.1 hrow
    obtain ⟨q, _, rfl⟩ := List.mem_map.1 hp
    unfold buildColorMaskPixel
    split_ifs with hc
    · left
      obtain ⟨hr2, hg2, hb2⟩ := hc
      rw [hr2, hg2, hb2]
    · right
      rfl
  · intro q
    unfold buildColorMaskPixel
    split_ifs with hc
    · obtain ⟨hr2, hg2, hb2⟩ := hc
      rw [hr2, hg2, hb2]
    · rfl

theorem C7_witness :
    (⟨1, 2, 3, 255⟩ : RGBA) = ⟨1, 2, 3, 255⟩ ∨
      (⟨1, 2, 3, 255⟩ : RGBA) = ⟨0, 0, 0, 0⟩ :=
  (C7_mask_pixels 1 2 3 [[⟨1, 2, 3, 9⟩]]).1 [⟨1, 2, 3, 255⟩] (by decide)
    ⟨1, 2, 3, 255⟩ (by decide)

/-- Claim C9: misread normalization rewrites `I`, `l`, `|` to `1` and
`O`, `o`, `〇` to `0`, is applied only before digit matching (the
Chinese-numeral pattern is searched on the unnormalized text), the digit
pattern accepts the misread marker `弟` and unit `坡`, and a phrase with
a misread digit such as `弟I坡` still parses (to `1`). -/
theorem C9_misread_normalization :
    (∀ t : List Char, normalize_common_misread t = t.map misreadFix) ∧
    misreadFix 'I' = '1' ∧ misreadFix 'l' = '1' ∧ misreadFix '|' = '1' ∧
    misreadFix 'O' = '0' ∧ misreadFix 'o' = '0' ∧ misreadFix '〇' = '0' ∧
    (∀ c : Char, misreadFix c = c ∨ misreadFix c = '1' ∨ misreadFix c = '0') ∧
    (∀ t : List Char, parse_wave_number t =
        match searchDigit (normalize_common_misread t) with
        | some run => some run
        | none => cnFallback t) ∧
    isMarkerGlyph '弟' = true ∧ isUnitGlyph '坡' = true ∧
    parse_wave_number "弟I坡".data = some "1".data ∧
    parse_wave_number "第〇波".data = some "0".data ∧
    parse_wave_number "弟l2坡".data = some "12".data :=
  ⟨fun _ => rfl, by decide, by decide, by decide, by decide, by decide,
    by decide, misreadFix_cases, fun _ => rfl, by decide, by decide,
    by decide, by decide, by decide⟩

/-- Claim C1: the parser meets the concrete contract (`第3波` to `3`,
`第 12 波` to `12`, `第三波` to `3`, `第十二波` to `12`, `第十波` to
`10`, prose without the marker to `none`), and for every input it
returns `none` or a non-empty ASCII digit string; being a total Lean
function, it never throws. -/
theorem C1_parse_contract :
    (parse_wave_number "第3波".data = some "3".data ∧
     parse_wave_number "第 12 波".data = some "12".data ∧
     parse_wave_number "第三波".data = some "3".data ∧
     parse_wave_number "第十二波".data = some "12".data ∧
     parse_wave_number "第十波".data = some "10".data ∧
     parse_wave_number "今天天气很好 hello".data = none) ∧
    (∀ t : List Char, (∀ c ∈ t, isMarkerGlyph c = false) →
        parse_wave_number t = none) ∧
    (∀ t r : List Char, parse_wave_number t = some r →
        r ≠ [] ∧ ∀ c ∈ r, isDig c = true) := by
  refine ⟨by decide, ?_, ?_⟩
  · intro t h
    rw [parse_wave_number, searchDigit_eq_none (normalize_no_marker h)]
    exact cnFallback_none h
  · intro t r h
    rw [parse_wave_number] at h
    cases hs : searchDigit (normalize_common_misread t) with
    | some run =>
      rw [hs] at h
      injection h with h2
      subst h2
      exact searchDigit_sound hs
    | none =>
      rw [hs] at h
      exact cnFallback_sound h

theorem C1_witness :
    parse_wave_number "随便一段话".data = none ∧
    (['4', '2'] ≠ [] ∧ ∀ c ∈ ['4', '2'], isDig c = true) :=
  ⟨C1_parse_contract.2.1 "随便一段话".data (by decide),
   C1_parse_contract.2.2 "第42波".data ['4', '2'] (by decide)⟩

/-- Claim C10: the 1-4 digit cap of the primary pattern causes total
rejection, not truncation: marker, then five or more ASCII digits, then
the unit parses to `none` (no 4-digit prefix is returned). -/
theorem C10_digit_cap (ds : List Char) (hlen : 5 ≤ ds.length)
    (hds : ∀ c ∈ ds, isDig c = true) :
    parse_wave_number ('第' :: ds ++ ['波']) = none := by
  rw [List.cons_append]
  rcases ds with _ | ⟨d, ds'⟩
  · simp at hlen
  have hd : isDig d = true := hds d (by simp)
  have hnomark : ∀ c ∈ (d :: ds') ++ ['波'], isMarkerGlyph c = false := by
    intro c hc
    rcases List.mem_append.1 hc with h1 | h1
    · exact isDig_not_marker (hds c h1)
    · simp at h1
      subst h1
      decide
  have hdrop : ((d :: ds') ++ ['波']).dropWhile isPySpace = (d :: ds') ++ ['波'] := by
    rw [List.cons_append, List.dropWhile_cons_of_neg]
    simp [isDig_not_space hd]
  have htake : ((d :: ds') ++ ['波']).takeWhile isDig = d :: ds' :=
    takeWhile_all_append hds (by decide)
  have hnorm : normalize_common_misread ('第' :: ((d :: ds') ++ ['波'])) =
      '第' :: ((d :: ds') ++ ['波']) := by
    rw [normalize_common_misread, List.map_cons, List.map_append,
      map_misreadFix_digits hds,
      (by decide : misreadFix '第' = '第'),
      (by decide : ['波'].map misreadFix = ['波'])]
  have hmAt : matchDigitAt ('第' :: ((d :: ds') ++ ['波'])) = none := by
    simp only [matchDigitAt]
    rw [if_pos (by decide : isMarkerGlyph '第' = true), hdrop, htake,
      if_neg (by simp : ¬(d :: ds' = [])),
      if_pos (by simp at hlen ⊢; omega : 4 < (d :: ds').length)]
  have hsd : searchDigit ('第' :: ((d :: ds') ++ ['波'])) = none := by
    rw [searchDigit, hmAt]
    exact searchDigit_eq_none hnomark
  have hmc : matchCnAt ('第' :: ((d :: ds') ++ ['波'])) = none := by
    simp only [matchCnAt]
    rw [if_pos (by decide : isMarkerGlyph '第' = true), hdrop]
    have htc : ((d :: ds') ++ ['波']).takeWhile isCnGlyph = [] := by
      rw [List.cons_append, List.takeWhile_cons_of_neg]
      simp [isDig_not_cn hd]
    rw [htc, if_pos rfl]
  have hsc : searchCn ('第' :: ((d :: ds') ++ ['波'])) = none := by
    rw [searchCn, hmc]
    exact searchCn_eq_none hnomark
  rw [parse_wave_number, hnorm, hsd]
  rw [cnFallback, hsc]

theorem C10_witness : parse_wave_number "第12345波".data = none :=
  C10_digit_cap "12345".data (by decide) (by decide)

/-- Claim C2: for inputs containing the tens marker the conversion
follows the split rule of the spec: split on the marker; an empty prefix
gives tens 1 (bare marker gives 10), a non-empty prefix must be exactly
one recognized digit glyph, an absent or empty suffix segment gives ones
0, a present one must be exactly one recognized digit glyph, any other
shape fails, and success yields tens * 10 + ones. -/
theorem C2_tens_rule (s : List Char) (h : '十' ∈ s) :
    chinese_numeral_to_int s = c2WaveTens s := by
  have hm : '十' ∈ mapLiang s := mem_shi_mapLiang h
  have h1 : ¬(mapLiang s = []) := List.ne_nil_of_mem hm
  have h2 : ¬((mapLiang s).all (fun c => (digitVal c).isSome) = true) := by
    rw [List.all_eq_true]
    intro hall
    have := hall '十' hm
    simp [digitVal] at this
  simp only [chinese_numeral_to_int, c2WaveTens]
  rw [if_neg h1, if_neg h2, if_pos hm]
  by_cases hp : splitOnChar '十' (mapLiang s) = [[], []]
  · rw [if_pos hp, hp]
    decide
  · rw [if_neg hp]
    cases hq : (splitOnChar '十' (mapLiang s))[1]? with
    | none =>
      cases h3 : (if (splitOnChar '十' (mapLiang s)).headD [] = [] then some 1
          else strDigitVal ((splitOnChar '十' (mapLiang s)).headD [])) <;> rfl
    | some p =>
      cases h3 : (if (splitOnChar '十' (mapLiang s)).headD [] = [] then some 1
          else strDigitVal ((splitOnChar '十' (mapLiang s)).headD [])) <;>
        cases h4 : (if p = [] then some 0 else strDigitVal p) <;> rfl

theorem C2_witness :
    chinese_numeral_to_int "三十五".data = c2WaveTens "三十五".data :=
  C2_tens_rule "三十五".data (by decide)

/-- Claim C6: `capture_region` raises the geometry `ScreenCaptureError`
exactly when the normalized width or height is non-positive, i.e.
exactly when `x1 = x2` or `y1 = y2`; in that case the result does not
depend on the OS grab (the check rejects before any capture attempt);
every error is one of the two `ScreenCaptureError` kinds; an OS grab
failure on a valid region surfaces as the typed OS-failure error, and a
successful grab returns the frame. -/
theorem C6_capture_errors {α : Type} (grab grab2 : Int → Int → Int → Int → Option α)
    (x1 y1 x2 y2 : Int) :
    ((∃ w h, capture_region grab x1 y1 x2 y2 =
        Except.error (ScreenCaptureError.badGeometry w h)) ↔
      (x1 = x2 ∨ y1 = y2)) ∧
    ((x1 = x2 ∨ y1 = y2) →
      capture_region grab x1 y1 x2 y2 = capture_region grab2 x1 y1 x2 y2) ∧
    (∀ e, capture_region grab x1 y1 x2 y2 = Except.error e →
      e = ScreenCaptureError.osFailure ∨
        ∃ w h, e = ScreenCaptureError.badGeometry w h) ∧
    (¬(x1 = x2 ∨ y1 = y2) →
      grab (min x1 x2) (min y1 y2) (max x1 x2 - min x1 x2)
        (max y1 y2 - min y1 y2) = none →
      capture_region grab x1 y1 x2 y2 =
        Except.error ScreenCaptureError.osFailure) ∧
    (∀ f : α, ¬(x1 = x2 ∨ y1 = y2) →
      grab (min x1 x2) (min y1 y2) (max x1 x2 - min x1 x2)
        (max y1 y2 - min y1 y2) = some f →
      capture_region grab x1 y1 x2 y2 = Except.ok f) := by
  have hiff : (max x1 x2 - min x1 x2 ≤ 0 ∨ max y1 y2 - min y1 y2 ≤ 0) ↔
      (x1 = x2 ∨ y1 = y2) :=
    or_congr (sub_minmax_nonpos_iff x1 x2) (sub_minmax_nonpos_iff y1 y2)
  simp only [capture_region, normalize_box]
  by_cases hg : max x1 x2 - min x1 x2 ≤ 0 ∨ max y1 y2 - min y1 y2 ≤ 0
  · rw [if_pos hg, if_pos hg]
    refine ⟨⟨fun _ => hiff.1 hg, fun _ => ⟨_, _, rfl⟩⟩, fun _ => rfl, ?_, ?_, ?_⟩
    · intro e he
      injection he with h2
      subst h2
      right
      exact ⟨_, _, rfl⟩
    · intro hne _
      exact absurd (hiff.1 hg) hne
    · intro f hne _
      exact absurd (hiff.1 hg) hne
  · rw [if_neg hg, if_neg hg]
    have hne2 : ¬(x1 = x2 ∨ y1 = y2) := fun hc => hg (hiff.2 hc)
    cases hgr : grab (min x1 x2) (min y1 y2) (max x1 x2 - min x1 x2)
        (max y1 y2 - min y1 y2) with
    | some f =>
      refine ⟨⟨?_, fun hc => absurd hc hne2⟩, fun hc => absurd hc hne2, ?_, ?_, ?_⟩
      · rintro ⟨w, h, hcontra⟩
        simp at hcontra
      · intro e he
        simp at he
      · intro _ hgr2
        simp at hgr2
      · intro f2 _ hgr2
        injection hgr2 with h3
        rw [h3]
    | none =>
      refine ⟨⟨?_, fun hc => absurd hc hne2⟩, fun hc => absurd hc hne2, ?_, ?_, ?_⟩
      · rintro ⟨w, h, hcontra⟩
        simp at hcontra
      · intro e he
        injection he with h2
        subst h2
        left
        rfl
      · intro _ _
        rfl
      · intro f2 _ hgr2
        simp at hgr2

theorem C6_witness :
    capture_region (fun _ _ _ _ => (none : Option Nat)) 0 0 0 5 =
      capture_region (fun _ _ _ _ => (some 7 : Option Nat)) 0 0 0 5 ∧
    capture_region (fun _ _ _ _ => (none : Option Nat)) 0 0 2 3 =
      Except.error ScreenCaptureError.osFailure :=
  ⟨(C6_capture_errors (fun _ _ _ _ => (none : Option Nat))
      (fun _ _ _ _ => some 7) 0 0 0 5).2.1 (Or.inl rfl),
   (C6_capture_errors (fun _ _ _ _ => (none : Option Nat))
      (fun _ _ _ _ => (none : Option Nat)) 0 0 2 3).2.2.2.1 (by decide) rfl⟩

/-- Claim C8: `save_region_color_mask` deduplicates by content: when the
directory already holds an image identical to the candidate mask it
returns the `none` sentinel and writes nothing, otherwise it writes
exactly one file named `<unix-seconds>.png` and returns its name; hence
a second export of the same region and sample point returns the sentinel
and leaves the directory unchanged. -/
theorem C8_dedup_export (screen : Int → Int → Nat × Nat × Nat)
    (x1 y1 x2 y2 cx cy : Int) (d0 d1 : ExportDir)
    (p1 : Option (List Char)) (t1 t2 : Nat)
    (h1 : save_region_color_mask screen x1 y1 x2 y2 cx cy d0 t1 =
      Except.ok (d1, p1)) :
    save_region_color_mask screen x1 y1 x2 y2 cx cy d1 t2 =
      Except.ok (d1, none) ∧
    (image_already_exists (regionMask screen x1 y1 x2 y2 cx cy) d0.files = true →
      p1 = none ∧ d1 = d0) ∧
    (image_already_exists (regionMask screen x1 y1 x2 y2 cx cy) d0.files = false →
      p1 = some (natDigits t1 ++ ".png".data) ∧
      d1.files = d0.files ++
        [⟨natDigits t1 ++ ".png".data, regionMask screen x1 y1 x2 y2 cx cy⟩]) := by
  have hg := save_geom_ok h1
  rw [save_ok screen x1 y1 x2 y2 cx cy d0 t1 hg] at h1
  injection h1 with h1
  rw [save_ok screen x1 y1 x2 y2 cx cy d1 t2 hg]
  simp only [saveMaskStep] at h1 ⊢
  by_cases hdup : image_already_exists
      (regionMask screen x1 y1 x2 y2 cx cy) d0.files = true
  · rw [if_pos hdup] at h1
    have hd : d0 = d1 := congrArg Prod.fst h1
    have hp : (none : Option (List Char)) = p1 := congrArg Prod.snd h1
    subst hd
    refine ⟨?_, fun _ => ⟨hp.symm, rfl⟩, fun hf => by simp [hf] at hdup⟩
    rw [if_pos hdup]
  · rw [if_neg hdup] at h1
    have hd : (⟨d0.files ++
        [⟨natDigits t1 ++ ".png".data, regionMask screen x1 y1 x2 y2 cx cy⟩]⟩ :
        ExportDir) = d1 := congrArg Prod.fst h1
    have hp := congrArg Prod.snd h1
    simp only at hp
    subst hd
    refine ⟨?_, fun ht => absurd ht hdup, fun _ => ⟨hp.symm, rfl⟩⟩
    rw [if_pos (image_already_exists_append
      (regionMask screen x1 y1 x2 y2 cx cy) d0.files t1)]

theorem C8_witness :
    save_region_color_mask (fun _ _ => (5, 6, 7)) 0 0 1 1 0 0
        ⟨[⟨['1', '0', '0', '.', 'p', 'n', 'g'], [[⟨5, 6, 7, 255⟩]]⟩]⟩ 200 =
      Except.ok
        (⟨[⟨['1', '0', '0', '.', 'p', 'n', 'g'], [[⟨5, 6, 7, 255⟩]]⟩]⟩, none) :=
  (C8_dedup_export (fun _ _ => (5, 6, 7)) 0 0 1 1 0 0 ⟨[]⟩
      ⟨[⟨['1', '0', '0', '.', 'p', 'n', 'g'], [[⟨5, 6, 7, 255⟩]]⟩]⟩
      (some ['1', '0', '0', '.', 'p', 'n', 'g']) 100 200 (by decide)).1

